import Mathlib

/-
Verification of the Stone-Paper-Scissors terminal game
(single C source file, Stone-Paper-Scissors.c).

The development shallowly embeds the game's logic:
  - the three-way move/outcome decision table of the main loop,
  - best-of input validation (scanf result, parity/sign check),
  - line reading via fgets with bounded buffers plus clearInputBuffer,
  - the bounded-retry move reader getPlayerChoice,
  - the match loop with win counters and scoreboard/final output,
  - the figlet subprocess exit handling at match end.
Standard input is modelled as a list of characters; the computer's
random choices as a list of moves (randomNumber(1,3) mapped
1 -> Stone, 2 -> Paper, 3 -> Scissors as in the main loop's branches).
-/

namespace SPS

/-- The three game moves; player choice codes 1/2/3 and computer
choice codes 1/2/3 of the C source map to stone/paper/scissors. -/
inductive Move
  | stone
  | paper
  | scissors
deriving DecidableEq, Repr, Fintype

/-- Outcome of a single round. -/
inductive RoundOutcome
  | playerWin
  | computerWin
  | tie
deriving DecidableEq, Repr, Fintype

/-- Round resolution: direct transcription of the nested
if/else decision table in main (playerChoice 1/2/3 outer,
computerChoice 1/2/3 inner), recording which counter the
corresponding branch increments (or neither, for ties). -/
def resolve (player computer : Move) : RoundOutcome :=
  match player with
  | .stone =>
    match computer with
    | .stone => .tie
    | .paper => .computerWin
    | .scissors => .playerWin
  | .paper =>
    match computer with
    | .stone => .playerWin
    | .paper => .tie
    | .scissors => .computerWin
  | .scissors =>
    match computer with
    | .stone => .computerWin
    | .paper => .playerWin
    | .scissors => .tie

/-- Effect of one round's branch on the two win counters:
playerWins++ on a player win, computerWins++ on a computer win,
no change on a tie. -/
def scoreRound (o : RoundOutcome) (playerWins computerWins : Nat) : Nat × Nat :=
  match o with
  | .playerWin => (playerWins + 1, computerWins)
  | .computerWin => (playerWins, computerWins + 1)
  | .tie => (playerWins, computerWins)

/-- Result of the best-of prompt: the diagnostic printed (if any),
the exit status the program returns at this point (if it exits here),
and on success the accepted value together with the required win
count n. -/
structure BestOfResult where
  message : Option String
  exitCode : Option Nat
  value : Option (Int × Int)
deriving DecidableEq, Repr

/-- Best-of validation, transcribed from main: scanf failure
(modelled as no parsed integer) prints "Invalid input..." and
returns 1; a parsed value failing bestOf % 2 == 0 || bestOf < 0
prints "Only positive odd integers are valid..." and returns 1;
otherwise n = (bestOf + 1) / 2.  C's % and / truncate toward zero,
hence Int.tmod and Int.tdiv. -/
def readBestOf (scanned : Option Int) : BestOfResult :=
  match scanned with
  | none => ⟨some "Invalid input...\n\n", some 1, none⟩
  | some bestOf =>
    if bestOf.tmod 2 = 0 ∨ bestOf < 0 then
      ⟨some "Only positive odd integers are valid...\n\n", some 1, none⟩
    else
      ⟨none, none, some (bestOf, (bestOf + 1).tdiv 2)⟩

/-- Maximum characters for the player's name buffer,
including the terminator (MAX_PLAYER_NAME). -/
def MAX_PLAYER_NAME : Nat := 20

/-- Maximum attempts to enter a valid move (MAX_CHOICE_ATTEMPTS). -/
def MAX_CHOICE_ATTEMPTS : Nat := 5

/-- Buffer size for the move input (MAX_CHOICE_INPUT_LENGTH). -/
def MAX_CHOICE_INPUT_LENGTH : Nat := 9

/-- clearInputBuffer: reads and discards characters until a newline
(consumed) or end of input. -/
def clearInputBuffer : List Char → List Char
  | [] => []
  | c :: rest => if c = '\n' then rest else clearInputBuffer rest

/-- C fgets with a buffer of size n+1: reads at most n characters,
stopping after (and keeping) a newline or at end of input; returns
the characters read and the remaining input. -/
def fgets : Nat → List Char → List Char × List Char
  | 0, input => ([], input)
  | _ + 1, [] => ([], [])
  | n + 1, c :: rest =>
    if c = '\n' then ([c], rest)
    else
      let r := fgets n rest
      (c :: r.1, r.2)

/-- The shared read-a-line idiom of main and getPlayerChoice:
fgets into a buffer of the given size; if the buffer ends in a
newline, strip it, otherwise the input was longer than the buffer
and the leftover is discarded with clearInputBuffer. -/
def readLine (bufSize : Nat) (input : List Char) : List Char × List Char :=
  let r := fgets (bufSize - 1) input
  if r.1 ≠ [] ∧ r.1.getLast? = some '\n' then (r.1.dropLast, r.2)
  else (r.1, clearInputBuffer r.2)

/-- Reading the player name: the readLine idiom with the
MAX_PLAYER_NAME-sized buffer. -/
def readPlayerName (input : List Char) : List Char × List Char :=
  readLine MAX_PLAYER_NAME input

/-- The valid move words of getPlayerChoice, as character lists. -/
def moveWord : Move → List Char
  | .stone => "stone".toList
  | .paper => "paper".toList
  | .scissors => "scissors".toList

/-- The comparison chain of getPlayerChoice: lowercase the buffer
(tolower on each character) and strcmp against "stone", "paper",
"scissors" in that order; anything else is an invalid choice. -/
def parseMoveBuf (buf : List Char) : Option Move :=
  if buf.map Char.toLower = "stone".toList then some .stone
  else if buf.map Char.toLower = "paper".toList then some .paper
  else if buf.map Char.toLower = "scissors".toList then some .scissors
  else none

/-- One attempt of getPlayerChoice: read a line into the
MAX_CHOICE_INPUT_LENGTH-sized buffer (stripping the newline or
clearing the overflow) and run the comparison chain. -/
def choiceAttempt (input : List Char) : Option Move × List Char :=
  let r := readLine MAX_CHOICE_INPUT_LENGTH input
  (parseMoveBuf r.1, r.2)

/-- Result of getPlayerChoice: a move plus the remaining input, or
process termination (message printed, exit status) after the retry
bound is exhausted. -/
inductive ChoiceResult
  | ok (m : Move) (rest : List Char)
  | fatal (message : String) (exitCode : Nat)
deriving DecidableEq, Repr

/-- getPlayerChoice: up to the given number of attempts (called with
MAX_CHOICE_ATTEMPTS); each failed attempt prints "Invalid Choice..."
and retries; exhausting the attempts prints
"Too many invalid inputs..." and exits the process with status 1. -/
def getPlayerChoice : Nat → List Char → ChoiceResult
  | 0, _ => .fatal "Too many invalid inputs...\n" 1
  | attempts + 1, input =>
    match choiceAttempt input with
    | (some m, rest) => .ok m rest
    | (none, rest) => getPlayerChoice attempts rest

/-- Console output events of the main loop. -/
inductive Event
  | scoreboard (pw cw : Nat)
  | finalMessage (playerWon : Bool) (pw cw : Nat)
deriving DecidableEq, Repr

/-- How a run of the main loop ends: the loop condition became false
(finished, with final counters and number of rounds played), the
process exited from getPlayerChoice (aborted), or one of the modelled
input streams ran out (artifact of the embedding). -/
inductive MatchResult
  | finished (pw cw rounds : Nat)
  | aborted (message : String) (exitCode : Nat) (pw cw : Nat)
  | outOfInput
deriving DecidableEq, Repr

/-- The main game loop of main: while playerWins < n and
computerWins < n, read the player's move, take the computer's next
random move, update the counter the decision table selects, then
either print the scoreboard (when neither counter equals n) or print
the final message.  comp models the successive randomNumber(1,3)
outputs; input models stdin. -/
def runMatch (n : Nat) : List Move → Nat → Nat → Nat → List Char → MatchResult × List Event
  | comp, pw, cw, rounds, input =>
    if pw < n ∧ cw < n then
      match getPlayerChoice MAX_CHOICE_ATTEMPTS input with
      | .fatal msg code => (.aborted msg code pw cw, [])
      | .ok m rest =>
        match comp with
        | [] => (.outOfInput, [])
        | c :: cs =>
          match scoreRound (resolve m c) pw cw with
          | (pw2, cw2) =>
            if pw2 ≠ n ∧ cw2 ≠ n then
              ((runMatch n cs pw2 cw2 (rounds + 1) rest).1,
                .scoreboard pw2 cw2 :: (runMatch n cs pw2 cw2 (rounds + 1) rest).2)
            else
              ((runMatch n cs pw2 cw2 (rounds + 1) rest).1,
                .finalMessage (pw2 == n) pw2 cw2 :: (runMatch n cs pw2 cw2 (rounds + 1) rest).2)
    else (.finished pw cw rounds, [])

/-- Outcome of fork/execvp/waitpid for the figlet child: fork
returned -1, or the child exited normally with a status, or it
terminated abnormally (WIFEXITED false). -/
inductive SpawnResult
  | forkFailed
  | exited (status : Nat)
  | signaled
deriving DecidableEq, Repr

/-- The figlet result-announcement epilogue of main: fork failure
reports "Fork failed" (perror) and returns 1; a normally terminated
child with non-zero exit status is reported to stderr and main
returns 1; an abnormally terminated child is reported and main
returns 1; otherwise main falls through the loop exit and returns 0.
Yields (exit status of main, diagnostic reported if any). -/
def announceResult : SpawnResult → Nat × Option String
  | .forkFailed => (1, some "Fork failed")
  | .exited status =>
    if status ≠ 0 then
      (1, some ("Child process failed to execute with status " ++ toString status ++ "\n"))
    else (0, none)
  | .signaled => (1, some "Child process terminated abnormally\n")

theorem clearInputBuffer_line (l rest : List Char) (h : '\n' ∉ l) :
    clearInputBuffer (l ++ '\n' :: rest) = rest := by
  induction l with
  | nil => simp [clearInputBuffer]
  | cons c l ih =>
    have hc : c ≠ '\n' := fun hc => h (by simp [hc])
    have hl : '\n' ∉ l := fun hm => h (by simp [hm])
    simp [clearInputBuffer, hc, ih hl]

theorem fgets_line (l : List Char) : ∀ (n : Nat) (rest : List Char), '\n' ∉ l →
    fgets n (l ++ '\n' :: rest) =
      if l.length < n then (l ++ ['\n'], rest)
      else (l.take n, l.drop n ++ '\n' :: rest) := by
  induction l with
  | nil =>
    intro n rest _
    cases n with
    | zero => simp [fgets]
    | succ m => simp [fgets]
  | cons c l ih =>
    intro n rest h
    have hc : c ≠ '\n' := fun hc => h (by simp [hc])
    have hl : '\n' ∉ l := fun hm => h (by simp [hm])
    cases n with
    | zero => simp [fgets]
    | succ m =>
      simp only [List.cons_append, fgets, if_neg hc, List.append_eq]
      rw [ih m rest hl]
      by_cases hlen : l.length < m
      · rw [if_pos hlen, if_pos (by simpa using Nat.succ_lt_succ hlen)]
      · rw [if_neg hlen, if_neg (by simp; omega)]
        simp

theorem readLine_line (n : Nat) (l rest : List Char) (h : '\n' ∉ l) :
    readLine (n + 1) (l ++ '\n' :: rest) = (l.take n, rest) := by
  unfold readLine
  rw [show n + 1 - 1 = n from rfl, fgets_line l n rest h]
  by_cases hlen : l.length < n
  · rw [if_pos hlen]
    simp only [ne_eq]
    rw [if_pos ⟨by simp, List.getLast?_concat l⟩, List.dropLast_concat,
      List.take_of_length_le (Nat.le_of_lt hlen)]
  · rw [if_neg hlen]
    push_neg at hlen
    have hdrop : '\n' ∉ l.drop n := fun hm => h (List.drop_subset n l hm)
    cases n with
    | zero =>
      simp only [List.take_zero, List.drop_zero]
      rw [if_neg (by simp), clearInputBuffer_line l rest h]
    | succ m =>
      have hne : l.take (m + 1) ≠ [] := by
        have hlt : (l.take (m + 1)).length = m + 1 := by
          rw [List.length_take]
          omega
        intro he
        rw [he] at hlt
        simp at hlt
      have hlast : ¬ (l.take (m + 1)).getLast? = some '\n' := by
        intro hx
        exact h (List.take_subset (m + 1) l (List.mem_of_mem_getLast? hx))
      rw [if_neg (by simp [hne, hlast]), clearInputBuffer_line _ rest hdrop]

theorem parseMoveBuf_eq_some (buf : List Char) (m : Move) :
    parseMoveBuf buf = some m ↔ buf.map Char.toLower = moveWord m := by
  constructor
  · intro hx
    unfold parseMoveBuf at hx
    split_ifs at hx with h1 h2 h3 <;> cases m <;> simp_all [moveWord]
  · intro hx
    unfold parseMoveBuf
    rw [hx]
    cases m <;> decide

theorem parseMoveBuf_eq_none (buf : List Char) :
    parseMoveBuf buf = none ↔ ∀ m, buf.map Char.toLower ≠ moveWord m := by
  constructor
  · intro hn m hm
    have := (parseMoveBuf_eq_some buf m).mpr hm
    rw [hn] at this
    exact Option.noConfusion this
  · intro hall
    cases hp : parseMoveBuf buf with
    | none => rfl
    | some m => exact absurd ((parseMoveBuf_eq_some buf m).mp hp) (hall m)

theorem choiceAttempt_line (l rest : List Char) (h : '\n' ∉ l) :
    choiceAttempt (l ++ '\n' :: rest) = (parseMoveBuf (l.take 8), rest) := by
  unfold choiceAttempt MAX_CHOICE_INPUT_LENGTH
  rw [readLine_line 8 l rest h]

theorem getPlayerChoice_invalid_step (a : Nat) (l rest : List Char)
    (h : '\n' ∉ l) (hp : parseMoveBuf (l.take 8) = none) :
    getPlayerChoice (a + 1) (l ++ '\n' :: rest) = getPlayerChoice a rest := by
  have hca := choiceAttempt_line l rest h
  rw [hp] at hca
  rw [getPlayerChoice, hca]

theorem getPlayerChoice_valid_step (a : Nat) (l rest : List Char) (m : Move)
    (h : '\n' ∉ l) (hp : parseMoveBuf (l.take 8) = some m) :
    getPlayerChoice (a + 1) (l ++ '\n' :: rest) = .ok m rest := by
  have hca := choiceAttempt_line l rest h
  rw [hp] at hca
  rw [getPlayerChoice, hca]

theorem runMatch_exit (n : Nat) (comp : List Move) (pw cw rounds : Nat)
    (input : List Char) (h : ¬ (pw < n ∧ cw < n)) :
    runMatch n comp pw cw rounds input = (.finished pw cw rounds, []) := by
  rw [runMatch, if_neg h]

theorem runMatch_fatal (n : Nat) (comp : List Move) (pw cw rounds : Nat)
    (input : List Char) (msg : String) (code : Nat)
    (h1 : pw < n) (h2 : cw < n)
    (hg : getPlayerChoice MAX_CHOICE_ATTEMPTS input = .fatal msg code) :
    runMatch n comp pw cw rounds input = (.aborted msg code pw cw, []) := by
  rw [runMatch, if_pos ⟨h1, h2⟩, hg]

theorem runMatch_round (n : Nat) (c : Move) (cs : List Move) (pw cw rounds : Nat)
    (input rest : List Char) (m : Move) (a b : Nat)
    (h1 : pw < n) (h2 : cw < n)
    (hg : getPlayerChoice MAX_CHOICE_ATTEMPTS input = .ok m rest)
    (hsc : scoreRound (resolve m c) pw cw = (a, b)) :
    runMatch n (c :: cs) pw cw rounds input =
      if a ≠ n ∧ b ≠ n then
        ((runMatch n cs a b (rounds + 1) rest).1,
          .scoreboard a b :: (runMatch n cs a b (rounds + 1) rest).2)
      else
        ((runMatch n cs a b (rounds + 1) rest).1,
          .finalMessage (a == n) a b :: (runMatch n cs a b (rounds + 1) rest).2) := by
  rw [runMatch, if_pos ⟨h1, h2⟩, hg]
  dsimp only
  rw [hsc]

theorem runMatch_ok_nil (n : Nat) (pw cw rounds : Nat)
    (input rest : List Char) (m : Move)
    (h1 : pw < n) (h2 : cw < n)
    (hg : getPlayerChoice MAX_CHOICE_ATTEMPTS input = .ok m rest) :
    runMatch n [] pw cw rounds input = (.outOfInput, []) := by
  rw [runMatch, if_pos ⟨h1, h2⟩, hg]

theorem scoreRound_cases (o : RoundOutcome) (pw cw : Nat) :
    scoreRound o pw cw = (pw + 1, cw) ∨ scoreRound o pw cw = (pw, cw + 1) ∨
      scoreRound o pw cw = (pw, cw) := by
  cases o <;> simp [scoreRound]

theorem runMatch_finished_inv (n : Nat) (comp : List Move) :
    ∀ (pw cw rounds : Nat) (input : List Char) (pw' cw' rounds' : Nat)
      (evs : List Event),
      pw < n → cw < n →
      runMatch n comp pw cw rounds input = (.finished pw' cw' rounds', evs) →
      ((pw' = n ∧ cw' < n) ∨ (cw' = n ∧ pw' < n)) ∧
      ∃ sbs : List Event,
        evs = sbs ++ [Event.finalMessage (pw' == n) pw' cw'] ∧
        (∀ e ∈ sbs, ∃ x y, e = Event.scoreboard x y ∧ x < n ∧ y < n) ∧
        rounds' = rounds + sbs.length + 1 := by
  induction comp with
  | nil =>
    intro pw cw rounds input pw' cw' rounds' evs hpw hcw hrun
    cases hg : getPlayerChoice MAX_CHOICE_ATTEMPTS input with
    | fatal msg code =>
      rw [runMatch_fatal n [] pw cw rounds input msg code hpw hcw hg] at hrun
      exact absurd hrun (by simp)
    | ok m rest =>
      rw [runMatch_ok_nil n pw cw rounds input rest m hpw hcw hg] at hrun
      exact absurd hrun (by simp)
  | cons c cs ih =>
    intro pw cw rounds input pw' cw' rounds' evs hpw hcw hrun
    cases hg : getPlayerChoice MAX_CHOICE_ATTEMPTS input with
    | fatal msg code =>
      rw [runMatch_fatal n (c :: cs) pw cw rounds input msg code hpw hcw hg] at hrun
      exact absurd hrun (by simp)
    | ok m rest =>
      obtain ⟨a, b, hsc, hab⟩ : ∃ a b, scoreRound (resolve m c) pw cw = (a, b) ∧
          ((a = pw + 1 ∧ b = cw) ∨ (a = pw ∧ b = cw + 1) ∨ (a = pw ∧ b = cw)) := by
        rcases scoreRound_cases (resolve m c) pw cw with h | h | h
        · exact ⟨pw + 1, cw, h, Or.inl ⟨rfl, rfl⟩⟩
        · exact ⟨pw, cw + 1, h, Or.inr (Or.inl ⟨rfl, rfl⟩)⟩
        · exact ⟨pw, cw, h, Or.inr (Or.inr ⟨rfl, rfl⟩)⟩
      rw [runMatch_round n c cs pw cw rounds input rest m a b hpw hcw hg hsc] at hrun
      have han : a ≤ n := by rcases hab with ⟨h, _⟩ | ⟨h, _⟩ | ⟨h, _⟩ <;> omega
      have hbn : b ≤ n := by rcases hab with ⟨_, h⟩ | ⟨_, h⟩ | ⟨_, h⟩ <;> omega
      have hnboth : ¬ (a = n ∧ b = n) := by
        rcases hab with ⟨h, h2⟩ | ⟨h, h2⟩ | ⟨h, h2⟩ <;> omega
      by_cases hterm : a ≠ n ∧ b ≠ n
      · rw [if_pos hterm] at hrun
        rcases hR : runMatch n cs a b (rounds + 1) rest with ⟨r1, r2⟩
        rw [hR] at hrun
        simp only [Prod.mk.injEq] at hrun
        obtain ⟨hr1, hr2⟩ := hrun
        subst hr1
        obtain ⟨hxor, sbs, hevs, hsbs, hrnd⟩ :=
          ih a b (rounds + 1) rest pw' cw' rounds' r2 (by omega) (by omega) hR
        refine ⟨hxor, .scoreboard a b :: sbs, ?_, ?_, ?_⟩
        · rw [← hr2, hevs]
          rfl
        · intro e he
          rcases List.mem_cons.mp he with rfl | hm
          · exact ⟨a, b, rfl, by omega, by omega⟩
          · exact hsbs e hm
        · simp only [List.length_cons]
          omega
      · rw [if_neg hterm] at hrun
        have hone : a = n ∨ b = n := by tauto
        have hnot : ¬ (a < n ∧ b < n) := by rcases hone with h | h <;> omega
        rw [runMatch_exit n cs a b (rounds + 1) rest hnot] at hrun
        simp only [Prod.mk.injEq, MatchResult.finished.injEq] at hrun
        obtain ⟨⟨e1, e2, e3⟩, e4⟩ := hrun
        refine ⟨?_, [], ?_, by simp, by simp only [List.length_nil]; omega⟩
        · rcases hab with ⟨h1', h2'⟩ | ⟨h1', h2'⟩ | ⟨h1', h2'⟩ <;>
            rcases hone with h | h <;> omega
        · rw [← e4, ← e1, ← e2]
          rfl

end SPS

/-- Claim C1: over all nine move pairs, the round resolution ties
exactly on equal moves; on unequal moves it yields exactly one of
PlayerWin/ComputerWin following the standard rule (Stone beats
Scissors, Scissors beats Paper, Paper beats Stone), and it is
antisymmetric: resolve m1 m2 = PlayerWin iff resolve m2 m1 = ComputerWin. -/
theorem SPS.resolve_standard_rule :
    (∀ m1 m2 : SPS.Move, (SPS.resolve m1 m2 = .tie ↔ m1 = m2)) ∧
    (∀ m1 m2 : SPS.Move, m1 ≠ m2 →
      (SPS.resolve m1 m2 = .playerWin ∧ SPS.resolve m1 m2 ≠ .computerWin) ∨
      (SPS.resolve m1 m2 = .computerWin ∧ SPS.resolve m1 m2 ≠ .playerWin)) ∧
    SPS.resolve .stone .scissors = .playerWin ∧
    SPS.resolve .scissors .paper = .playerWin ∧
    SPS.resolve .paper .stone = .playerWin ∧
    (∀ m1 m2 : SPS.Move,
      SPS.resolve m1 m2 = .playerWin ↔ SPS.resolve m2 m1 = .computerWin) := by
  refine ⟨?_, ?_, rfl, rfl, rfl, ?_⟩ <;> decide

/-- Witness for C1's conditional part at a concrete unequal pair. -/
theorem SPS.resolve_standard_rule_witness :
    (SPS.resolve .paper .scissors = .playerWin ∧
      SPS.resolve .paper .scissors ≠ .computerWin) ∨
    (SPS.resolve .paper .scissors = .computerWin ∧
      SPS.resolve .paper .scissors ≠ .playerWin) :=
  SPS.resolve_standard_rule.2.1 .paper .scissors (by decide)

/-- Claim C2: the best-of prompt accepts exactly the positive odd
integers; a failed parse prints "Invalid input..." and exits with
status 1; an even or negative value prints "Only positive odd
integers are valid..." and exits with status 1; on success the
required win count is (bestOf + 1) / 2, so 3 gives 2 and 7 gives 4. -/
theorem SPS.readBestOf_spec :
    SPS.readBestOf none = ⟨some "Invalid input...\n\n", some 1, none⟩ ∧
    (∀ b : Int, ¬ (0 < b ∧ Odd b) →
      SPS.readBestOf (some b) =
        ⟨some "Only positive odd integers are valid...\n\n", some 1, none⟩) ∧
    (∀ b : Int, 0 < b → Odd b →
      SPS.readBestOf (some b) = ⟨none, none, some (b, (b + 1) / 2)⟩) ∧
    SPS.readBestOf (some 3) = ⟨none, none, some (3, 2)⟩ ∧
    SPS.readBestOf (some 7) = ⟨none, none, some (7, 4)⟩ := by
  refine ⟨rfl, ?_, ?_, by decide, by decide⟩
  · intro b hb
    simp only [SPS.readBestOf]
    rw [if_pos]
    by_cases hlt : b < 0
    · exact Or.inr hlt
    · push_neg at hlt
      left
      rw [Int.tmod_eq_emod hlt (by norm_num)]
      rcases Int.even_or_odd b with he | ho
      · exact Int.even_iff.mp he
      · have h1 := Int.odd_iff.mp ho
        exact absurd ⟨by omega, ho⟩ hb
  · intro b hbpos hodd
    simp only [SPS.readBestOf]
    rw [if_neg, Int.tdiv_eq_ediv (by omega) (by norm_num)]
    push_neg
    refine ⟨?_, by omega⟩
    rw [Int.tmod_eq_emod (by omega) (by norm_num)]
    have := Int.odd_iff.mp hodd
    omega

/-- Witness for C2 at the concrete inputs 4 (even, rejected) and
5 (positive odd, accepted with n = 3). -/
theorem SPS.readBestOf_spec_witness :
    SPS.readBestOf (some 4) =
      ⟨some "Only positive odd integers are valid...\n\n", some 1, none⟩ ∧
    SPS.readBestOf (some 5) = ⟨none, none, some (5, (5 + 1) / 2)⟩ :=
  ⟨SPS.readBestOf_spec.2.1 4 (by norm_num [Int.odd_iff]),
   SPS.readBestOf_spec.2.2.1 5 (by norm_num) (by norm_num [Int.odd_iff])⟩

/-- Claim C3: from a fresh match with winsNeeded n ≥ 1, whenever the
match loop exits normally one of the two counters has reached n, and
never both: exactly one side reaches the threshold. -/
theorem SPS.match_loop_single_winner (n : Nat) (comp : List SPS.Move)
    (input : List Char) (pw cw rounds : Nat) (evs : List SPS.Event)
    (hn : 1 ≤ n)
    (hrun : SPS.runMatch n comp 0 0 0 input = (.finished pw cw rounds, evs)) :
    (pw = n ∨ cw = n) ∧ ¬ (pw = n ∧ cw = n) := by
  obtain ⟨hxor, _⟩ := SPS.runMatch_finished_inv n comp 0 0 0 input pw cw rounds
    evs (by omega) (by omega) hrun
  rcases hxor with ⟨h1, h2⟩ | ⟨h1, h2⟩
  · exact ⟨Or.inl h1, by omega⟩
  · exact ⟨Or.inr h1, by omega⟩

/-- Witness for C3: a one-round match (n = 1) where the player's
stone beats the computer's scissors. -/
theorem SPS.match_loop_single_winner_witness :
    ((1 = 1 ∨ 0 = 1) ∧ ¬ (1 = 1 ∧ 0 = 1)) :=
  SPS.match_loop_single_winner 1 [.scissors] ("stone\n".toList) 1 0 1
    [.finalMessage true 1 0] (by decide) (by decide)

/-- Claim C4 is false as stated: the move buffer holds
MAX_CHOICE_INPUT_LENGTH - 1 = 8 characters, so the line "scissorsq"
is truncated to "scissors" and accepted as Scissors even though the
full line does not case-fold to "scissors". -/
theorem SPS.choiceAttempt_counterexample :
    SPS.getPlayerChoice SPS.MAX_CHOICE_ATTEMPTS ("scissorsq\n".toList) =
      .ok SPS.Move.scissors [] ∧
    "scissorsq".toList.map Char.toLower ≠ "scissors".toList := by
  decide

/-- Claim C4 (amended): one attempt of the move reader accepts its
line iff the line truncated to the 8-character buffer case-folds to
"stone", "paper" or "scissors" (so "STONE", "Stone", "sToNe" all give
Stone, but also any longer line whose first 8 characters fold to
"scissors" is accepted); on any other line the attempt fails and the
reader retries with one fewer attempt. -/
theorem SPS.choiceAttempt_spec (l rest : List Char) (h : '\n' ∉ l) :
    (∀ m : SPS.Move,
      SPS.choiceAttempt (l ++ '\n' :: rest) = (some m, rest) ↔
        (l.take 8).map Char.toLower = SPS.moveWord m) ∧
    ((∀ m : SPS.Move, (l.take 8).map Char.toLower ≠ SPS.moveWord m) →
      ∀ a : Nat, SPS.getPlayerChoice (a + 1) (l ++ '\n' :: rest) =
        SPS.getPlayerChoice a rest) := by
  constructor
  · intro m
    rw [SPS.choiceAttempt_line l rest h]
    constructor
    · intro hx
      simp only [Prod.mk.injEq] at hx
      exact (SPS.parseMoveBuf_eq_some _ m).mp hx.1
    · intro hx
      rw [(SPS.parseMoveBuf_eq_some _ m).mpr hx]
  · intro hall a
    exact SPS.getPlayerChoice_invalid_step a l rest h
      ((SPS.parseMoveBuf_eq_none _).mpr hall)

/-- Witness for C4 (amended) at the mixed-case line "sToNe". -/
theorem SPS.choiceAttempt_spec_witness :
    SPS.choiceAttempt ("sToNe".toList ++ '\n' :: []) = (some SPS.Move.stone, []) :=
  ((SPS.choiceAttempt_spec "sToNe".toList [] (by decide)).1 SPS.Move.stone).mpr
    (by decide)

/-- Claim C5: five consecutive invalid move inputs exhaust the
5-attempt bound: getPlayerChoice reports "Too many invalid inputs..."
and terminates the process with exit status 1, and the match loop
aborts with both win counters unchanged — no round is scored. -/
theorem SPS.fiveInvalid_aborts (n : Nat) (comp : List SPS.Move)
    (l1 l2 l3 l4 l5 rest : List Char) (pw cw rounds : Nat)
    (hv : ∀ l ∈ [l1, l2, l3, l4, l5], '\n' ∉ l ∧ SPS.parseMoveBuf (l.take 8) = none)
    (hpw : pw < n) (hcw : cw < n) :
    SPS.getPlayerChoice SPS.MAX_CHOICE_ATTEMPTS
        (l1 ++ '\n' :: (l2 ++ '\n' :: (l3 ++ '\n' :: (l4 ++ '\n' :: (l5 ++ '\n' :: rest))))) =
      .fatal "Too many invalid inputs...\n" 1 ∧
    SPS.runMatch n comp pw cw rounds
        (l1 ++ '\n' :: (l2 ++ '\n' :: (l3 ++ '\n' :: (l4 ++ '\n' :: (l5 ++ '\n' :: rest))))) =
      (.aborted "Too many invalid inputs...\n" 1 pw cw, []) := by
  have h1 := hv l1 (by simp)
  have h2 := hv l2 (by simp)
  have h3 := hv l3 (by simp)
  have h4 := hv l4 (by simp)
  have h5 := hv l5 (by simp)
  have hg : SPS.getPlayerChoice 5
      (l1 ++ '\n' :: (l2 ++ '\n' :: (l3 ++ '\n' :: (l4 ++ '\n' :: (l5 ++ '\n' :: rest))))) =
      .fatal "Too many invalid inputs...\n" 1 := by
    rw [show (5 : Nat) = 4 + 1 from rfl,
      SPS.getPlayerChoice_invalid_step 4 l1 _ h1.1 h1.2,
      show (4 : Nat) = 3 + 1 from rfl,
      SPS.getPlayerChoice_invalid_step 3 l2 _ h2.1 h2.2,
      show (3 : Nat) = 2 + 1 from rfl,
      SPS.getPlayerChoice_invalid_step 2 l3 _ h3.1 h3.2,
      show (2 : Nat) = 1 + 1 from rfl,
      SPS.getPlayerChoice_invalid_step 1 l4 _ h4.1 h4.2,
      show (1 : Nat) = 0 + 1 from rfl,
      SPS.getPlayerChoice_invalid_step 0 l5 _ h5.1 h5.2]
    rfl
  exact ⟨hg, SPS.runMatch_fatal n comp pw cw rounds _ _ 1 hpw hcw hg⟩

/-- Witness for C5: five times the invalid line "rock" at the start
of a best-of-1 match. -/
theorem SPS.fiveInvalid_aborts_witness :
    SPS.getPlayerChoice SPS.MAX_CHOICE_ATTEMPTS
        ("rock".toList ++ '\n' :: ("rock".toList ++ '\n' :: ("rock".toList ++ '\n' ::
          ("rock".toList ++ '\n' :: ("rock".toList ++ '\n' :: []))))) =
      .fatal "Too many invalid inputs...\n" 1 ∧
    SPS.runMatch 1 [] 0 0 0
        ("rock".toList ++ '\n' :: ("rock".toList ++ '\n' :: ("rock".toList ++ '\n' ::
          ("rock".toList ++ '\n' :: ("rock".toList ++ '\n' :: []))))) =
      (.aborted "Too many invalid inputs...\n" 1 0 0, []) :=
  SPS.fiveInvalid_aborts 1 [] "rock".toList "rock".toList "rock".toList
    "rock".toList "rock".toList [] 0 0 0 (by decide) (by decide) (by decide)

/-- Claim C6: at match end the program exits 0 iff the banner child
was created successfully, terminated normally, and exited with
status 0; in every failure case (fork failure, non-zero child exit,
abnormal child termination) a diagnostic is reported and the program
exits with status 1. -/
theorem SPS.announceResult_spec :
    ∀ r : SPS.SpawnResult,
      ((SPS.announceResult r).1 = 0 ↔ r = .exited 0) ∧
      (r ≠ .exited 0 →
        (SPS.announceResult r).1 = 1 ∧ ((SPS.announceResult r).2).isSome = true) := by
  intro r
  cases r with
  | forkFailed => simp [SPS.announceResult]
  | exited s =>
    by_cases hs : s = 0
    · subst hs
      simp [SPS.announceResult]
    · simp [SPS.announceResult, hs]
  | signaled => simp [SPS.announceResult]

/-- Witness for C6 at the fork-failure case. -/
theorem SPS.announceResult_spec_witness :
    (SPS.announceResult .forkFailed).1 = 1 ∧
    ((SPS.announceResult .forkFailed).2).isSome = true :=
  (SPS.announceResult_spec .forkFailed).2 (by decide)

/-- Claim C7 is false as stated: with accepted best-of N = 1
(winsNeeded n = 1), a tied first round is replayed, so the match
takes 2 rounds, exceeding N. -/
theorem SPS.rounds_exceed_bestOf_counterexample :
    SPS.readBestOf (some 1) = ⟨none, none, some (1, 1)⟩ ∧
    SPS.runMatch 1 [SPS.Move.stone, SPS.Move.scissors] 0 0 0 ("stone\nstone\n".toList) =
      (.finished 1 0 2, [SPS.Event.scoreboard 0 0, SPS.Event.finalMessage true 1 0]) ∧
    ¬ (2 ≤ 1) := by
  decide

/-- Claim C7 (amended): for an accepted best-of value N (positive
odd) with winsNeeded n = (N + 1) / 2, a finished match has at most N
decisive (non-tie) rounds: the final win counters sum to at most N.
Tie rounds are replayed and make the total round count exceed N. -/
theorem SPS.decisive_rounds_le_bestOf (N n : Nat) (comp : List SPS.Move)
    (input : List Char) (pw cw rounds : Nat) (evs : List SPS.Event)
    (hodd : N % 2 = 1) (hn : n = (N + 1) / 2)
    (hrun : SPS.runMatch n comp 0 0 0 input = (.finished pw cw rounds, evs)) :
    pw + cw ≤ N := by
  obtain ⟨hxor, _⟩ := SPS.runMatch_finished_inv n comp 0 0 0 input pw cw rounds
    evs (by omega) (by omega) hrun
  rcases hxor with ⟨h1, h2⟩ | ⟨h1, h2⟩ <;> omega

/-- Witness for C7 (amended) on the same best-of-1 run: one decisive
round out of two rounds played. -/
theorem SPS.decisive_rounds_le_bestOf_witness : 1 + 0 ≤ 1 :=
  SPS.decisive_rounds_le_bestOf 1 1 [SPS.Move.stone, SPS.Move.scissors]
    ("stone\nstone\n".toList) 1 0 2
    [SPS.Event.scoreboard 0 0, SPS.Event.finalMessage true 1 0]
    (by decide) (by decide) (by decide)

/-- Claim C8: in a finished match the scoreboard line is printed
exactly after each non-terminal round — every scoreboard event has
both counters below winsNeeded — and the terminal round produces only
the final announcement, which is the last output event. -/
theorem SPS.scoreboard_non_terminal_only (n : Nat) (comp : List SPS.Move)
    (input : List Char) (pw cw rounds : Nat) (evs : List SPS.Event)
    (hn : 1 ≤ n)
    (hrun : SPS.runMatch n comp 0 0 0 input = (.finished pw cw rounds, evs)) :
    (∀ x y, SPS.Event.scoreboard x y ∈ evs → x < n ∧ y < n) ∧
    ∃ sbs : List SPS.Event,
      evs = sbs ++ [SPS.Event.finalMessage (pw == n) pw cw] ∧
      (∀ e ∈ sbs, ∃ x y, e = SPS.Event.scoreboard x y) ∧
      rounds = sbs.length + 1 := by
  obtain ⟨hxor, sbs, hevs, hsbs, hrnd⟩ := SPS.runMatch_finished_inv n comp 0 0 0
    input pw cw rounds evs (by omega) (by omega) hrun
  constructor
  · intro x y hm
    rw [hevs] at hm
    rcases List.mem_append.mp hm with hm | hm
    · obtain ⟨x', y', he, hx', hy'⟩ := hsbs _ hm
      injection he with e1 e2
      omega
    · simp at hm
  · refine ⟨sbs, hevs, ?_, by omega⟩
    intro e he
    obtain ⟨x, y, hxy, _, _⟩ := hsbs e he
    exact ⟨x, y, hxy⟩

/-- Witness for C8: a best-of-3 match (n = 2) won by the player in
two rounds: one scoreboard line, then the final announcement. -/
theorem SPS.scoreboard_non_terminal_only_witness :
    (∀ x y, SPS.Event.scoreboard x y ∈
        [SPS.Event.scoreboard 1 0, SPS.Event.finalMessage true 2 0] → x < 2 ∧ y < 2) ∧
    ∃ sbs : List SPS.Event,
      [SPS.Event.scoreboard 1 0, SPS.Event.finalMessage true 2 0] =
        sbs ++ [SPS.Event.finalMessage (2 == 2) 2 0] ∧
      (∀ e ∈ sbs, ∃ x y, e = SPS.Event.scoreboard x y) ∧
      2 = sbs.length + 1 :=
  SPS.scoreboard_non_terminal_only 2 [.scissors, .scissors]
    ("stone\nstone\n".toList) 2 0 2
    [SPS.Event.scoreboard 1 0, SPS.Event.finalMessage true 2 0]
    (by decide) (by decide)

/-- Claim C10: reading the player name consumes exactly one input
line: the stored name is the line truncated to at most 19 characters
(MAX_PLAYER_NAME minus the terminator), the trailing newline is
stripped, and any overflow is discarded so the remaining input is
exactly the rest of stdin — nothing leaks into the next read; an
empty line is accepted as the empty name. -/
theorem SPS.readPlayerName_spec (line rest : List Char) (h : '\n' ∉ line) :
    SPS.readPlayerName (line ++ '\n' :: rest) = (line.take 19, rest) ∧
    (line.take 19).length ≤ 19 ∧
    SPS.readPlayerName ('\n' :: rest) = ([], rest) := by
  refine ⟨SPS.readLine_line 19 line rest h, ?_, ?_⟩
  · rw [List.length_take]
    omega
  · exact SPS.readLine_line 19 [] rest (by simp)

/-- Witness for C10: a 25-character name is truncated to 19
characters and the following prompt's input is untouched. -/
theorem SPS.readPlayerName_spec_witness :
    SPS.readPlayerName ((List.replicate 25 'a') ++ '\n' :: "3\n".toList) =
      ((List.replicate 25 'a').take 19, "3\n".toList) ∧
    ((List.replicate 25 'a').take 19).length ≤ 19 ∧
    SPS.readPlayerName ('\n' :: "3\n".toList) = ([], "3\n".toList) :=
  SPS.readPlayerName_spec (List.replicate 25 'a') "3\n".toList (by decide)

/-- Claim C9: in every round the counters are mutated by incrementing
exactly one of playerWins/computerWins by exactly 1 when the round has
a winner (the moves differ), and neither counter changes on a tie
(equal moves).  The win threshold n is an immutable parameter of the
loop embedding, so it is never modified after being computed. -/
theorem SPS.scoreRound_frame :
    ∀ (p c : SPS.Move) (pw cw : Nat),
      (p = c ∧ SPS.scoreRound (SPS.resolve p c) pw cw = (pw, cw)) ∨
      (p ≠ c ∧ SPS.scoreRound (SPS.resolve p c) pw cw = (pw + 1, cw)) ∨
      (p ≠ c ∧ SPS.scoreRound (SPS.resolve p c) pw cw = (pw, cw + 1)) := by
  intro p c pw cw
  cases p <;> cases c <;> simp [SPS.resolve, SPS.scoreRound]
